import Mathlib

/-!
Verification development for the clipper backend (`src/main.py`).

The handler `process_video`, the transcript segment construction inside
`transcribe_video` (lines 93-103), the markdown-fence stripping of the
proposal payload (lines 164-168) and the `clip_moments` normalisation
(lines 170-173) are embedded directly from the source.  External effects
(blob download, WhisperX transcription, the Gemini proposal call, and
`json.loads`) are passed in as oracle values/functions, so every execution
path of the handler is a value of `RunOutcome`.

The clip validator/selector described by the specification has no body in
the source (`process_clip` is `pass` and the processing loop is commented
out); it is modelled from the specification, as marked on each definition.
-/

/-- JSON values as produced by Python `json.loads`. -/
inductive JValue where
  | null : JValue
  | bool (b : Bool) : JValue
  | num (q : ℚ) : JValue
  | str (s : String) : JValue
  | arr (items : List JValue) : JValue
  | obj (fields : List (String × JValue)) : JValue

/-- Python truthiness (`bool(x)`) of a parsed JSON value: `None`, `False`,
`0`, `""`, `[]` and `{}` are falsy. -/
def JValue.isTruthy : JValue → Bool
  | .null => false
  | .bool b => b
  | .num q => q != 0
  | .str s => s != ""
  | .arr items => !items.isEmpty
  | .obj fields => !fields.isEmpty

/-- Python `isinstance(x, list)` on a parsed JSON value. -/
def JValue.isArr : JValue → Bool
  | .arr _ => true
  | _ => false

/-- Whether a parsed JSON object carries a given key (`False` for any
non-object value). -/
def JValue.hasKey (v : JValue) (k : String) : Bool :=
  match v with
  | .obj fields => fields.any (fun p => p.1 == k)
  | _ => false

/-- A raw aligned word record as returned by WhisperX: the keys
`start`, `end` and `text` read at `src/main.py` lines 96-101. -/
structure RawWord where
  start : ℚ
  «end» : ℚ
  text : String
  deriving DecidableEq

/-- One element of the `segments` list built by `transcribe_video`
(`src/main.py` lines 97-101): keys `start`, `end`, `word`. -/
structure Segment where
  start : ℚ
  «end» : ℚ
  word : String
  deriving DecidableEq

/-- The segment construction of `transcribe_video` (`src/main.py` lines
93-103): if the WhisperX result has a `segments` key (`some`), each raw
word record is copied into a `{start, end, word}` record, in order;
otherwise the list stays empty. -/
def transcribe_segments (result : Option (List RawWord)) : List Segment :=
  match result with
  | none => []
  | some ws => ws.map (fun w => { start := w.start, «end» := w.«end», word := w.text })

/-- The markdown-fence stripping applied to the raw proposal text
(`src/main.py` lines 164-168): `strip()`, drop a leading ```` ```json ````
marker, drop a trailing ```` ``` ```` marker. -/
def cleaned_json_string (s : String) : String :=
  let s1 := s.trim
  let s2 := if s1.startsWith "```json" then (s1.drop "```json".length).trim else s1
  let s3 := if s2.endsWith "```" then (s2.dropRight "```".length).trim else s2
  s3

/-- The `clip_moments` normalisation (`src/main.py` lines 170-173): a parsed
payload that is falsy or not a list is replaced by the empty list. -/
def clip_moments (parsed : JValue) : JValue :=
  if !parsed.isTruthy || !parsed.isArr then JValue.arr [] else parsed

/-- The three external-call stages of a run. -/
inductive StageCall where
  | download : StageCall
  | transcribe : StageCall
  | propose : StageCall
  deriving DecidableEq

/-- Oracle values for the external effects of one run: the Supabase
download, the WhisperX transcription (`none` models a result dict without
a `segments` key), and the Gemini proposal text.  `Except.error` models
the external call raising an exception. -/
structure Externals where
  downloadResult : Except String String
  transcribeResult : Except String (Option (List RawWord))
  proposeResult : Except String String

/-- How the handler terminates: a raised `HTTPException`, an exception
propagating uncaught out of the handler, or a normal return (HTTP 200)
with the returned body. -/
inductive HandlerResult where
  | httpException (status : ℕ) (detail : String) : HandlerResult
  | unhandled (stage : String) (msg : String) : HandlerResult
  | ok (body : JValue) : HandlerResult

/-- Observable outcome of one handler execution: how it terminated, the
directories existing afterwards, the external calls made in order, and the
final `clip_moments` value when that line is reached. -/
structure RunOutcome where
  result : HandlerResult
  dirs : List String
  calls : List StageCall
  moments : Option JValue

/-- The `process_video` endpoint (`src/main.py` lines 136-186).  Control
flow is exactly the source: bearer-token check (line 140, raising 401);
`base_dir.mkdir` (line 145); Supabase download (lines 148-154); transcription
(lines 157-158); Gemini proposal (line 162); fence stripping and
`json.loads` (lines 164-170); the `clip_moments` guard (lines 171-173).
The clip-processing loop and the cleanup are commented out in the source,
so the function then returns `None` (a null body) and no directory is ever
removed.  Any exception from an external call propagates uncaught. -/
def process_video (tokenCredentials authTokenEnv runId : String)
    (ext : Externals) (jsonLoads : String → Option JValue)
    (fs0 : List String) : RunOutcome :=
  if tokenCredentials ≠ authTokenEnv then
    { result := .httpException 401 "Invalid bearer token",
      dirs := fs0, calls := [], moments := none }
  else
    let dirs := fs0 ++ [runId]
    match ext.downloadResult with
    | .error e =>
        { result := .unhandled "download" e, dirs := dirs,
          calls := [.download], moments := none }
    | .ok _bytes =>
      match ext.transcribeResult with
      | .error e =>
          { result := .unhandled "transcribe" e, dirs := dirs,
            calls := [.download, .transcribe], moments := none }
      | .ok raw =>
        let _transcript_segments := transcribe_segments raw
        match ext.proposeResult with
        | .error e =>
            { result := .unhandled "propose" e, dirs := dirs,
              calls := [.download, .transcribe, .propose], moments := none }
        | .ok text =>
          match jsonLoads (cleaned_json_string text) with
          | none =>
              { result := .unhandled "json.loads" "JSONDecodeError", dirs := dirs,
                calls := [.download, .transcribe, .propose], moments := none }
          | some parsed =>
              { result := .ok JValue.null, dirs := dirs,
                calls := [.download, .transcribe, .propose],
                moments := some (clip_moments parsed) }

/-- Modelled from the spec: an untrusted candidate clip window handed to
the validator (the source never reaches this step; `process_clip` is a
stub). -/
structure Candidate where
  start : ℚ
  «end» : ℚ
  deriving DecidableEq

/-- Modelled from the spec: a validated clip `{index, start, end}`. -/
structure Clip where
  index : ℕ
  start : ℚ
  «end» : ℚ
  deriving DecidableEq

/-- Greatest element of a list satisfying a predicate, if any. -/
def maxSat (p : ℚ → Bool) : List ℚ → Option ℚ
  | [] => none
  | b :: rest =>
    match maxSat p rest with
    | none => if p b then some b else none
    | some c => if p b then some (if b ≤ c then c else b) else some c

/-- Least element of a list satisfying a predicate, if any. -/
def minSat (p : ℚ → Bool) : List ℚ → Option ℚ
  | [] => none
  | b :: rest =>
    match minSat p rest with
    | none => if p b then some b else none
    | some c => if p b then some (if b ≤ c then b else c) else some c

/-- Modelled from the spec (§4.5 step 1): snap a raw start to the nearest
boundary `≤` it, clamping to the transcript start (the least boundary)
when none exists.  `none` only when the boundary set is empty. -/
def snapStart (bs : List ℚ) (s : ℚ) : Option ℚ :=
  match maxSat (fun b => decide (b ≤ s)) bs with
  | some b => some b
  | none => minSat (fun _ => true) bs

/-- Modelled from the spec (§4.5 step 1): snap a raw end to the nearest
boundary `≥` it, clamping to the transcript end (the greatest boundary)
when none exists. -/
def snapEnd (bs : List ℚ) (e : ℚ) : Option ℚ :=
  match minSat (fun b => decide (e ≤ b)) bs with
  | some b => some b
  | none => maxSat (fun _ => true) bs

/-- Modelled from the spec (§4.5 step 2): duration repair.  A snapped
window whose duration is below `minD` is extended to the least boundary
past `e` whose duration lies within the bounds; one whose duration exceeds
`maxD` is trimmed to the greatest boundary `≤ s + maxD`, discarded if the
trim falls below `minD`. -/
def adjustEnd (bs : List ℚ) (minD maxD s e : ℚ) : Option ℚ :=
  if minD ≤ e - s ∧ e - s ≤ maxD then some e
  else if e - s < minD then
    minSat (fun b => decide (e < b) && decide (minD ≤ b - s) && decide (b - s ≤ maxD)) bs
  else
    match maxSat (fun b => decide (b ≤ s + maxD)) bs with
    | none => none
    | some b => if b - s < minD then none else some b

/-- Modelled from the spec (§4.5 steps 1-2): snap one candidate and repair
its duration, yielding the `(start, end)` pair or discarding it. -/
def snapCandidate (bs : List ℚ) (minD maxD : ℚ) (c : Candidate) : Option (ℚ × ℚ) :=
  match snapStart bs c.start with
  | none => none
  | some s =>
    match snapEnd bs c.«end» with
    | none => none
    | some e0 =>
      match adjustEnd bs minD maxD s e0 with
      | none => none
      | some e => some (s, e)

/-- Stable insertion of a pair into a list ordered by start: the new pair
goes before any pair with an equal start already present later in the
input. -/
def insertByStart (p : ℚ × ℚ) : List (ℚ × ℚ) → List (ℚ × ℚ)
  | [] => [p]
  | q :: rest => if q.1 < p.1 then q :: insertByStart p rest else p :: q :: rest

/-- Modelled from the spec (§4.5 step 3): stable sort of the snapped
windows by ascending start. -/
def sortByStart : List (ℚ × ℚ) → List (ℚ × ℚ)
  | [] => []
  | p :: rest => insertByStart p (sortByStart rest)

/-- Modelled from the spec (§4.5 steps 3-4): a window is accepted when the
cap is not yet reached and it does not overlap the most recently accepted
window. -/
def canAccept (maxCount : ℕ) (acc : List (ℚ × ℚ)) (p : ℚ × ℚ) : Bool :=
  decide (acc.length < maxCount) &&
    (match acc.getLast? with
     | none => true
     | some q => decide (q.2 ≤ p.1))

/-- Modelled from the spec (§4.5 steps 3-4): greedy accumulation of the
sorted windows, discarding overlaps, capped at `maxCount`. -/
def accumulate (maxCount : ℕ) : List (ℚ × ℚ) → List (ℚ × ℚ) → List (ℚ × ℚ)
  | acc, [] => acc
  | acc, p :: rest =>
    if canAccept maxCount acc p then accumulate maxCount (acc ++ [p]) rest
    else accumulate maxCount acc rest

/-- Modelled from the spec (§4.5 step 5): assign sequential index values
in final order. -/
def withIndices : ℕ → List (ℚ × ℚ) → List Clip
  | _, [] => []
  | i, p :: rest => { index := i, start := p.1, «end» := p.2 } :: withIndices (i + 1) rest

/-- Modelled from the spec: the Clip Validator/Selector (§4.5), the part
of the system the source never implements (`process_clip` is `pass` and
the processing loop at `src/main.py` lines 177-186 is commented out).
Candidates are snapped to boundaries, duration-repaired, sorted by
ascending snapped start, greedily accumulated without overlap up to
`maxCount`, and indexed. -/
def validateClips (bs : List ℚ) (maxCount : ℕ) (minD maxD : ℚ)
    (cands : List Candidate) : List Clip :=
  withIndices 0 (accumulate maxCount [] (sortByStart (cands.filterMap (snapCandidate bs minD maxD))))

/-- The per-window facts established by snapping and duration repair with
the default bounds: both edges are boundaries and the duration lies in
`[30, 60]`. -/
def goodPair (bs : List ℚ) (pr : ℚ × ℚ) : Prop :=
  pr.1 ∈ bs ∧ pr.2 ∈ bs ∧ 30 ≤ pr.2 - pr.1 ∧ pr.2 - pr.1 ≤ 60

/-- A result of `maxSat` is a member of the list and satisfies the
predicate. -/
theorem maxSat_mem {p : ℚ → Bool} : ∀ {bs : List ℚ} {b : ℚ},
    maxSat p bs = some b → b ∈ bs ∧ p b = true := by
  intro bs
  induction bs with
  | nil => intro b h; simp [maxSat] at h
  | cons a rest ih =>
    intro b h
    simp only [maxSat] at h
    cases hr : maxSat p rest with
    | none =>
      simp only [hr] at h
      by_cases hp : p a = true
      · rw [if_pos hp] at h
        cases h
        exact ⟨List.mem_cons_self a rest, hp⟩
      · rw [if_neg hp] at h
        cases h
    | some c =>
      simp only [hr] at h
      obtain ⟨hcmem, hcp⟩ := ih hr
      by_cases hp : p a = true
      · rw [if_pos hp] at h
        by_cases hac : a ≤ c
        · rw [if_pos hac] at h
          cases h
          exact ⟨List.mem_cons_of_mem a hcmem, hcp⟩
        · rw [if_neg hac] at h
          cases h
          exact ⟨List.mem_cons_self a rest, hp⟩
      · rw [if_neg hp] at h
        cases h
        exact ⟨List.mem_cons_of_mem a hcmem, hcp⟩

/-- A result of `minSat` is a member of the list and satisfies the
predicate. -/
theorem minSat_mem {p : ℚ → Bool} : ∀ {bs : List ℚ} {b : ℚ},
    minSat p bs = some b → b ∈ bs ∧ p b = true := by
  intro bs
  induction bs with
  | nil => intro b h; simp [minSat] at h
  | cons a rest ih =>
    intro b h
    simp only [minSat] at h
    cases hr : minSat p rest with
    | none =>
      simp only [hr] at h
      by_cases hp : p a = true
      · rw [if_pos hp] at h
        cases h
        exact ⟨List.mem_cons_self a rest, hp⟩
      · rw [if_neg hp] at h
        cases h
    | some c =>
      simp only [hr] at h
      obtain ⟨hcmem, hcp⟩ := ih hr
      by_cases hp : p a = true
      · rw [if_pos hp] at h
        by_cases hac : a ≤ c
        · rw [if_pos hac] at h
          cases h
          exact ⟨List.mem_cons_self a rest, hp⟩
        · rw [if_neg hac] at h
          cases h
          exact ⟨List.mem_cons_of_mem a hcmem, hcp⟩
      · rw [if_neg hp] at h
        cases h
        exact ⟨List.mem_cons_of_mem a hcmem, hcp⟩

/-- A snapped start is always an element of the boundary set. -/
theorem snapStart_mem {bs : List ℚ} {s b : ℚ} (h : snapStart bs s = some b) : b ∈ bs := by
  simp only [snapStart] at h
  cases hm : maxSat (fun x => decide (x ≤ s)) bs with
  | some c =>
    simp only [hm] at h
    cases h
    exact (maxSat_mem hm).1
  | none =>
    simp only [hm] at h
    exact (minSat_mem h).1

/-- A snapped end is always an element of the boundary set. -/
theorem snapEnd_mem {bs : List ℚ} {e b : ℚ} (h : snapEnd bs e = some b) : b ∈ bs := by
  simp only [snapEnd] at h
  cases hm : minSat (fun x => decide (e ≤ x)) bs with
  | some c =>
    simp only [hm] at h
    cases h
    exact (minSat_mem hm).1
  | none =>
    simp only [hm] at h
    exact (maxSat_mem h).1

/-- Duration repair keeps the end on a boundary (or unchanged) and forces
the duration into the bounds. -/
theorem adjustEnd_spec {bs : List ℚ} {minD maxD s e e1 : ℚ}
    (h : adjustEnd bs minD maxD s e = some e1) :
    (e1 = e ∨ e1 ∈ bs) ∧ minD ≤ e1 - s ∧ e1 - s ≤ maxD := by
  simp only [adjustEnd] at h
  by_cases h1 : minD ≤ e - s ∧ e - s ≤ maxD
  · rw [if_pos h1] at h
    cases h
    exact ⟨Or.inl rfl, h1⟩
  · rw [if_neg h1] at h
    by_cases h2 : e - s < minD
    · rw [if_pos h2] at h
      obtain ⟨hmem, hp⟩ := minSat_mem h
      simp only [Bool.and_eq_true, decide_eq_true_eq] at hp
      exact ⟨Or.inr hmem, hp.1.2, hp.2⟩
    · rw [if_neg h2] at h
      cases hm : maxSat (fun b => decide (b ≤ s + maxD)) bs with
      | none => simp only [hm] at h; cases h
      | some c =>
        simp only [hm] at h
        obtain ⟨hmem, hp⟩ := maxSat_mem hm
        simp only [decide_eq_true_eq] at hp
        by_cases h3 : c - s < minD
        · rw [if_pos h3] at h
          cases h
        · rw [if_neg h3] at h
          cases h
          exact ⟨Or.inr hmem, le_of_not_lt h3, by linarith⟩

/-- Every window surviving snap and duration repair with the default
bounds satisfies `goodPair`. -/
theorem snapCandidate_good {bs : List ℚ} {c : Candidate} {pr : ℚ × ℚ}
    (h : snapCandidate bs 30 60 c = some pr) : goodPair bs pr := by
  simp only [snapCandidate] at h
  cases hs : snapStart bs c.start with
  | none => simp only [hs] at h; cases h
  | some s =>
    simp only [hs] at h
    cases he0 : snapEnd bs c.«end» with
    | none => simp only [he0] at h; cases h
    | some e0 =>
      simp only [he0] at h
      cases ha : adjustEnd bs 30 60 s e0 with
      | none => simp only [ha] at h; cases h
      | some e =>
        simp only [ha] at h
        cases h
        obtain ⟨he, hd1, hd2⟩ := adjustEnd_spec ha
        refine ⟨snapStart_mem hs, ?_, hd1, hd2⟩
        rcases he with rfl | he
        · exact snapEnd_mem he0
        · exact he

/-- Insertion adds no new elements. -/
theorem mem_insertByStart {p q : ℚ × ℚ} : ∀ {l : List (ℚ × ℚ)},
    q ∈ insertByStart p l → q = p ∨ q ∈ l := by
  intro l
  induction l with
  | nil =>
    intro h
    simp only [insertByStart] at h
    rcases List.mem_singleton.1 h with rfl
    exact Or.inl rfl
  | cons a rest ih =>
    intro h
    simp only [insertByStart] at h
    by_cases hc : a.1 < p.1
    · rw [if_pos hc] at h
      rcases List.mem_cons.1 h with rfl | h2
      · exact Or.inr (List.mem_cons_self _ _)
      · rcases ih h2 with h3 | h3
        · exact Or.inl h3
        · exact Or.inr (List.mem_cons_of_mem a h3)
    · rw [if_neg hc] at h
      rcases List.mem_cons.1 h with rfl | h2
      · exact Or.inl rfl
      · exact Or.inr h2

/-- Sorting adds no new elements. -/
theorem mem_sortByStart {q : ℚ × ℚ} : ∀ {l : List (ℚ × ℚ)}, q ∈ sortByStart l → q ∈ l := by
  intro l
  induction l with
  | nil => intro h; simp [sortByStart] at h
  | cons a rest ih =>
    intro h
    simp only [sortByStart] at h
    rcases mem_insertByStart h with rfl | h2
    · exact List.mem_cons_self _ _
    · exact List.mem_cons_of_mem a (ih h2)

/-- Greedy accumulation preserves the non-overlap chain, the cap, and any
per-element fact of the input windows. -/
theorem accumulate_inv (maxCount : ℕ) (Q : ℚ × ℚ → Prop) :
    ∀ (l acc : List (ℚ × ℚ)),
      List.Chain' (fun a b => a.2 ≤ b.1) acc →
      acc.length ≤ maxCount →
      (∀ p ∈ acc, Q p) →
      (∀ p ∈ l, Q p) →
      List.Chain' (fun a b => a.2 ≤ b.1) (accumulate maxCount acc l) ∧
      (accumulate maxCount acc l).length ≤ maxCount ∧
      (∀ p ∈ accumulate maxCount acc l, Q p) := by
  intro l
  induction l with
  | nil =>
    intro acc h1 h2 h3 _
    simp only [accumulate]
    exact ⟨h1, h2, h3⟩
  | cons p rest ih =>
    intro acc h1 h2 h3 h4
    simp only [accumulate]
    by_cases hc : canAccept maxCount acc p = true
    · rw [if_pos hc]
      rw [canAccept, Bool.and_eq_true, decide_eq_true_eq] at hc
      obtain ⟨hlen, hlast⟩ := hc
      apply ih
      · rw [List.chain'_append]
        refine ⟨h1, List.chain'_singleton p, ?_⟩
        intro x hx y hy
        simp only [List.head?_cons, Option.mem_def, Option.some.injEq] at hy
        subst hy
        rw [Option.mem_def] at hx
        rw [hx] at hlast
        exact of_decide_eq_true hlast
      · rw [List.length_append, List.length_singleton]
        omega
      · intro q hq
        rcases List.mem_append.1 hq with hq | hq
        · exact h3 q hq
        · rcases List.mem_singleton.1 hq with rfl
          exact h4 _ (List.mem_cons_self _ _)
      · intro q hq
        exact h4 q (List.mem_cons_of_mem p hq)
    · rw [if_neg hc]
      exact ih acc h1 h2 h3 (fun q hq => h4 q (List.mem_cons_of_mem p hq))

/-- An adjacent non-overlap chain of windows with nonnegative duration is
pairwise non-overlapping. -/
theorem chain_overlap_pairwise : ∀ {l : List (ℚ × ℚ)},
    List.Chain' (fun a b => a.2 ≤ b.1) l →
    (∀ p ∈ l, p.1 ≤ p.2) →
    List.Pairwise (fun a b : ℚ × ℚ => a.2 ≤ b.1) l := by
  intro l
  induction l with
  | nil => intro _ _; exact List.Pairwise.nil
  | cons p rest ih =>
    intro hc hd
    have hrest : List.Chain' (fun a b : ℚ × ℚ => a.2 ≤ b.1) rest := hc.tail
    have hprest : List.Pairwise (fun a b : ℚ × ℚ => a.2 ≤ b.1) rest :=
      ih hrest (fun q hq => hd q (List.mem_cons_of_mem p hq))
    refine List.Pairwise.cons ?_ hprest
    intro b hb
    cases rest with
    | nil => cases hb
    | cons q rest2 =>
      have hpq : p.2 ≤ q.1 := (List.chain'_cons.1 hc).1
      rcases List.mem_cons.1 hb with rfl | hb2
      · exact hpq
      · have hq2b : q.2 ≤ b.1 := (List.pairwise_cons.1 hprest).1 b hb2
        have hqd : q.1 ≤ q.2 := hd q (by simp)
        linarith

/-- Index assignment preserves length. -/
theorem withIndices_length : ∀ (i : ℕ) (l : List (ℚ × ℚ)),
    (withIndices i l).length = l.length := by
  intro i l
  induction l generalizing i with
  | nil => rfl
  | cons p rest ih => simp [withIndices, ih]

/-- Every produced clip's window is one of the accepted windows. -/
theorem mem_withIndices : ∀ {i : ℕ} {l : List (ℚ × ℚ)} {c : Clip},
    c ∈ withIndices i l → (c.start, c.«end») ∈ l := by
  intro i l
  induction l generalizing i with
  | nil => intro c h; simp [withIndices] at h
  | cons p rest ih =>
    intro c h
    simp only [withIndices] at h
    rcases List.mem_cons.1 h with rfl | h2
    · exact List.mem_cons_self p rest
    · exact List.mem_cons_of_mem p (ih h2)

/-- Index assignment transports any pairwise relation on the windows to
the clips. -/
theorem withIndices_pairwise {S : ℚ × ℚ → ℚ × ℚ → Prop} {R : Clip → Clip → Prop}
    (hcomp : ∀ (ia ib : ℕ) (a b : ℚ × ℚ), S a b → R ⟨ia, a.1, a.2⟩ ⟨ib, b.1, b.2⟩) :
    ∀ {l : List (ℚ × ℚ)} (i : ℕ), List.Pairwise S l → List.Pairwise R (withIndices i l) := by
  intro l
  induction l with
  | nil =>
    intro i _
    simp only [withIndices]
    exact List.Pairwise.nil
  | cons p rest ih =>
    intro i hp
    simp only [withIndices]
    obtain ⟨hhead, hrest⟩ := List.pairwise_cons.1 hp
    refine List.Pairwise.cons ?_ (ih (i + 1) hrest)
    intro c hc
    exact hcomp i c.index p (c.start, c.«end») (hhead _ (mem_withIndices hc))

/-- C1: every clip list produced by the modelled Clip Validator/Selector
from any boundary set and candidate list is sorted ascending by start,
pairwise non-overlapping, has every duration in `[30, 60]`, has both edges
in the boundary set, and has at most 3 clips. -/
theorem validateClips_invariants (bs : List ℚ) (cands : List Candidate) :
    (validateClips bs 3 30 60 cands).length ≤ 3 ∧
    List.Sorted (fun a b : Clip => a.start ≤ b.start) (validateClips bs 3 30 60 cands) ∧
    List.Pairwise (fun a b : Clip => a.«end» ≤ b.start) (validateClips bs 3 30 60 cands) ∧
    (∀ c ∈ validateClips bs 3 30 60 cands,
      (30 ≤ c.«end» - c.start ∧ c.«end» - c.start ≤ 60) ∧ c.start ∈ bs ∧ c.«end» ∈ bs) := by
  have hsnap : ∀ pr ∈ cands.filterMap (snapCandidate bs 30 60), goodPair bs pr := by
    intro pr hpr
    rcases List.mem_filterMap.1 hpr with ⟨c, _, hc⟩
    exact snapCandidate_good hc
  have hsorted : ∀ pr ∈ sortByStart (cands.filterMap (snapCandidate bs 30 60)), goodPair bs pr :=
    fun pr h => hsnap pr (mem_sortByStart h)
  obtain ⟨hchain, hlen, hgood⟩ :=
    accumulate_inv 3 (goodPair bs) (sortByStart (cands.filterMap (snapCandidate bs 30 60))) []
      List.chain'_nil (by simp) (by simp) hsorted
  have hunfold : validateClips bs 3 30 60 cands
      = withIndices 0 (accumulate 3 [] (sortByStart (cands.filterMap (snapCandidate bs 30 60)))) := rfl
  have hpw : List.Pairwise (fun a b : ℚ × ℚ => a.2 ≤ b.1)
      (accumulate 3 [] (sortByStart (cands.filterMap (snapCandidate bs 30 60)))) :=
    chain_overlap_pairwise hchain (fun p hp => by
      have h30 := (hgood p hp).2.2.1
      linarith)
  refine ⟨?_, ?_, ?_, ?_⟩
  · rw [hunfold, withIndices_length]
    exact hlen
  · rw [hunfold]
    have hpw2 : List.Pairwise (fun a b : ℚ × ℚ => a.1 ≤ b.1)
        (accumulate 3 [] (sortByStart (cands.filterMap (snapCandidate bs 30 60)))) := by
      refine List.Pairwise.imp_of_mem ?_ hpw
      intro a b ha hb hab
      have h30 := (hgood a ha).2.2.1
      linarith
    exact withIndices_pairwise (fun ia ib a b h => h) 0 hpw2
  · rw [hunfold]
    exact withIndices_pairwise (fun ia ib a b h => h) 0 hpw
  · intro c hc
    rw [hunfold] at hc
    have hg := hgood _ (mem_withIndices hc)
    exact ⟨⟨hg.2.2.1, hg.2.2.2⟩, hg.1, hg.2.1⟩

/-- Witness for C1 at a concrete boundary set and candidate. -/
theorem validateClips_invariants_witness :
    ((30 : ℚ) ≤ (60 : ℚ) - 0 ∧ (60 : ℚ) - 0 ≤ 60) ∧
    (0 : ℚ) ∈ [(0 : ℚ), 30, 60] ∧ (60 : ℚ) ∈ [(0 : ℚ), 30, 60] :=
  (validateClips_invariants [0, 30, 60] [Candidate.mk 0 60]).2.2.2
    (Clip.mk 0 0 60)
    (by norm_num [validateClips, snapCandidate, snapStart, snapEnd, adjustEnd, maxSat, minSat,
      sortByStart, insertByStart, accumulate, canAccept, withIndices, List.filterMap])

/-- C6: the handler responds HTTP 401 with detail string
"Invalid bearer token" exactly when the presented bearer token differs
from the configured secret. -/
theorem auth_401_iff_mismatch (token env runId : String) (ext : Externals)
    (jl : String → Option JValue) (fs0 : List String) :
    (process_video token env runId ext jl fs0).result
      = HandlerResult.httpException 401 "Invalid bearer token" ↔ token ≠ env := by
  constructor
  · intro h heq
    subst heq
    rcases ext with ⟨d, t, p⟩
    cases d with
    | error e => simp [process_video] at h
    | ok b =>
      cases t with
      | error e => simp [process_video] at h
      | ok r =>
        cases p with
        | error e => simp [process_video] at h
        | ok txt =>
          cases hj : jl (cleaned_json_string txt) with
          | none => simp [process_video, hj] at h
          | some v => simp [process_video, hj] at h
  · intro h
    simp [process_video, h]

/-- C8: within one run each external-call stage appears at most once in
the call trace - the handler never retries a stage. -/
theorem stages_at_most_once (token env runId : String) (ext : Externals)
    (jl : String → Option JValue) (fs0 : List String) :
    (process_video token env runId ext jl fs0).calls.count StageCall.download ≤ 1 ∧
    (process_video token env runId ext jl fs0).calls.count StageCall.transcribe ≤ 1 ∧
    (process_video token env runId ext jl fs0).calls.count StageCall.propose ≤ 1 := by
  have hc : (process_video token env runId ext jl fs0).calls = [] ∨
      (process_video token env runId ext jl fs0).calls = [StageCall.download] ∨
      (process_video token env runId ext jl fs0).calls
        = [StageCall.download, StageCall.transcribe] ∨
      (process_video token env runId ext jl fs0).calls
        = [StageCall.download, StageCall.transcribe, StageCall.propose] := by
    by_cases h : token = env
    · subst h
      rcases ext with ⟨d, t, p⟩
      cases d with
      | error e => right; left; simp [process_video]
      | ok b =>
        cases t with
        | error e => right; right; left; simp [process_video]
        | ok r =>
          cases p with
          | error e => right; right; right; simp [process_video]
          | ok txt =>
            cases hj : jl (cleaned_json_string txt) with
            | none => right; right; right; simp [process_video, hj]
            | some v => right; right; right; simp [process_video, hj]
    · left
      simp [process_video, h]
  rcases hc with h | h | h | h <;> rw [h] <;> refine ⟨?_, ?_, ?_⟩ <;> decide

/-- C9: the `clip_moments` guard always yields a list, and any parsed
value that is falsy or not a list is replaced by the empty list. -/
theorem clip_moments_always_list (v : JValue) :
    (clip_moments v).isArr = true ∧
    ((v.isTruthy = false ∨ v.isArr = false) → clip_moments v = JValue.arr []) := by
  rcases v with _ | b | q | s | items | fields
  · exact ⟨rfl, fun _ => rfl⟩
  · constructor
    · simp [clip_moments, JValue.isArr, JValue.isTruthy, Bool.or_true]
    · intro _
      simp [clip_moments, JValue.isArr, JValue.isTruthy, Bool.or_true]
  · constructor
    · simp [clip_moments, JValue.isArr, JValue.isTruthy, Bool.or_true]
    · intro _
      simp [clip_moments, JValue.isArr, JValue.isTruthy, Bool.or_true]
  · constructor
    · simp [clip_moments, JValue.isArr, JValue.isTruthy, Bool.or_true]
    · intro _
      simp [clip_moments, JValue.isArr, JValue.isTruthy, Bool.or_true]
  · cases items with
    | nil => exact ⟨rfl, fun _ => rfl⟩
    | cons x xs =>
      constructor
      · simp [clip_moments, JValue.isArr, JValue.isTruthy, List.isEmpty]
      · intro h
        rcases h with h | h <;>
          simp [JValue.isTruthy, JValue.isArr, List.isEmpty] at h
  · constructor
    · simp [clip_moments, JValue.isArr, JValue.isTruthy, Bool.or_true]
    · intro _
      simp [clip_moments, JValue.isArr, JValue.isTruthy, Bool.or_true]

/-- Witness for C9 at the parsed value `null`. -/
theorem clip_moments_always_list_witness :
    (clip_moments JValue.null).isArr = true ∧ clip_moments JValue.null = JValue.arr [] :=
  ⟨(clip_moments_always_list JValue.null).1,
   (clip_moments_always_list JValue.null).2 (Or.inl rfl)⟩

/-- C10: a request whose bearer token mismatches is rejected with 401
before any directory is created and before any external call is made. -/
theorem auth_reject_no_effects (token env runId : String) (ext : Externals)
    (jl : String → Option JValue) (fs0 : List String) (h : token ≠ env) :
    (process_video token env runId ext jl fs0).dirs = fs0 ∧
    (process_video token env runId ext jl fs0).calls = [] ∧
    (process_video token env runId ext jl fs0).result
      = HandlerResult.httpException 401 "Invalid bearer token" := by
  refine ⟨?_, ?_, ?_⟩ <;> simp [process_video, h]

/-- Witness for C10 at mismatching tokens. -/
theorem auth_reject_no_effects_witness :
    (process_video "a" "b" "r1" ⟨Except.ok "x", Except.ok none, Except.ok "y"⟩
        (fun _ => none) ["d0"]).dirs = ["d0"] ∧
    (process_video "a" "b" "r1" ⟨Except.ok "x", Except.ok none, Except.ok "y"⟩
        (fun _ => none) ["d0"]).calls = [] ∧
    (process_video "a" "b" "r1" ⟨Except.ok "x", Except.ok none, Except.ok "y"⟩
        (fun _ => none) ["d0"]).result
      = HandlerResult.httpException 401 "Invalid bearer token" :=
  auth_reject_no_effects "a" "b" "r1" ⟨Except.ok "x", Except.ok none, Except.ok "y"⟩
    (fun _ => none) ["d0"] (by decide)

/-- C3 counterexample: after a download failure the per-run workspace
directory is still present (the cleanup at `src/main.py` lines 183-186 is
commented out), contradicting the claim that it is absent. -/
theorem workspace_persists_cex :
    (process_video "t" "t" "r1" ⟨Except.error "netfail", Except.ok none, Except.ok "x"⟩
        (fun _ => none) []).dirs = ["r1"] := by rfl

/-- C3 (amended): on every authorized request the per-run workspace
directory still exists when the request finishes, whatever the outcome -
it is never released. -/
theorem workspace_never_released (token env runId : String) (ext : Externals)
    (jl : String → Option JValue) (fs0 : List String) (h : token = env) :
    runId ∈ (process_video token env runId ext jl fs0).dirs := by
  subst h
  rcases ext with ⟨d, t, p⟩
  cases d with
  | error e => simp [process_video]
  | ok b =>
    cases t with
    | error e => simp [process_video]
    | ok r =>
      cases p with
      | error e => simp [process_video]
      | ok txt =>
        cases hj : jl (cleaned_json_string txt) with
        | none => simp [process_video, hj]
        | some v => simp [process_video, hj]

/-- Witness for C3's amended theorem on a failing download. -/
theorem workspace_never_released_witness :
    "r1" ∈ (process_video "t" "t" "r1" ⟨Except.error "boom", Except.ok none, Except.ok "x"⟩
        (fun _ => none) []).dirs :=
  workspace_never_released "t" "t" "r1" ⟨Except.error "boom", Except.ok none, Except.ok "x"⟩
    (fun _ => none) [] rfl

/-- C4 counterexample: a download failure leaves the handler as an
uncaught exception, not an HTTP 500 response with a structured
`{run_id, stage, error}` body. -/
theorem stage_error_unhandled_cex :
    (process_video "t" "t" "r1" ⟨Except.error "netdown", Except.ok none, Except.ok "x"⟩
        (fun _ => none) []).result = HandlerResult.unhandled "download" "netdown" := by rfl

/-- C4 (amended): every run-fatal failure of an authorized run - a
download, transcription or proposal-retrieval exception, or a JSON parse
failure of the proposal payload - propagates out of the handler as an
unhandled exception carrying the failing stage's error, never as a
structured response. -/
theorem stage_errors_unhandled (token env runId msg : String) (ext : Externals)
    (jl : String → Option JValue) (fs0 : List String) (hauth : token = env) :
    (ext.downloadResult = Except.error msg →
      (process_video token env runId ext jl fs0).result
        = HandlerResult.unhandled "download" msg) ∧
    (∀ b, ext.downloadResult = Except.ok b → ext.transcribeResult = Except.error msg →
      (process_video token env runId ext jl fs0).result
        = HandlerResult.unhandled "transcribe" msg) ∧
    (∀ b r, ext.downloadResult = Except.ok b → ext.transcribeResult = Except.ok r →
      ext.proposeResult = Except.error msg →
      (process_video token env runId ext jl fs0).result
        = HandlerResult.unhandled "propose" msg) ∧
    (∀ b r t, ext.downloadResult = Except.ok b → ext.transcribeResult = Except.ok r →
      ext.proposeResult = Except.ok t → jl (cleaned_json_string t) = none →
      (process_video token env runId ext jl fs0).result
        = HandlerResult.unhandled "json.loads" "JSONDecodeError") := by
  subst hauth
  refine ⟨?_, ?_, ?_, ?_⟩
  · intro hd
    simp [process_video, hd]
  · intro b hd ht
    simp [process_video, hd, ht]
  · intro b r hd ht hp
    simp [process_video, hd, ht, hp]
  · intro b r t hd ht hp hj
    simp [process_video, hd, ht, hp, hj]

/-- Witness for C4's amended theorem on a failing download. -/
theorem stage_errors_unhandled_witness :
    (process_video "t" "t" "r1" ⟨Except.error "boom", Except.ok none, Except.ok "x"⟩
        (fun _ => none) []).result = HandlerResult.unhandled "download" "boom" :=
  (stage_errors_unhandled "t" "t" "r1" "boom"
      ⟨Except.error "boom", Except.ok none, Except.ok "x"⟩ (fun _ => none) [] rfl).1 rfl

/-- C2 counterexample: a fully successful authorized run returns a null
body, which carries neither a `run_id` nor a `clips` key. -/
theorem success_null_body_cex :
    (process_video "t" "t" "r1" ⟨Except.ok "bytes", Except.ok none, Except.ok "[]"⟩
        (fun _ => some (JValue.arr [])) []).result = HandlerResult.ok JValue.null ∧
    JValue.hasKey JValue.null "run_id" = false ∧
    JValue.hasKey JValue.null "clips" = false :=
  ⟨by rfl, rfl, rfl⟩

/-- C2 (amended): when the bearer token matches and all stages succeed,
the handler returns normally (HTTP 200) with a null body - the
`{run_id, clips}` response shape is not implemented. -/
theorem success_returns_null_body (token env runId blob text : String)
    (r : Option (List RawWord)) (v : JValue) (ext : Externals)
    (jl : String → Option JValue) (fs0 : List String)
    (hauth : token = env)
    (hd : ext.downloadResult = Except.ok blob)
    (ht : ext.transcribeResult = Except.ok r)
    (hp : ext.proposeResult = Except.ok text)
    (hj : jl (cleaned_json_string text) = some v) :
    (process_video token env runId ext jl fs0).result = HandlerResult.ok JValue.null ∧
    JValue.hasKey JValue.null "run_id" = false ∧
    JValue.hasKey JValue.null "clips" = false := by
  subst hauth
  refine ⟨?_, rfl, rfl⟩
  simp [process_video, hd, ht, hp, hj]

/-- Witness for C2's amended theorem on a fully successful run. -/
theorem success_returns_null_body_witness :
    (process_video "t" "t" "r2" ⟨Except.ok "bytes", Except.ok none, Except.ok "[]"⟩
        (fun _ => some (JValue.arr [])) []).result = HandlerResult.ok JValue.null ∧
    JValue.hasKey JValue.null "run_id" = false ∧
    JValue.hasKey JValue.null "clips" = false :=
  success_returns_null_body "t" "t" "r2" "bytes" "[]" none (JValue.arr [])
    ⟨Except.ok "bytes", Except.ok none, Except.ok "[]"⟩
    (fun _ => some (JValue.arr [])) [] rfl rfl rfl rfl rfl

/-- C5 counterexample: a payload that parses as JSON but not as a
sequence (here an object) does not fail the run - the handler completes
normally with an empty `clip_moments` list. -/
theorem nonsequence_payload_completes_cex :
    (process_video "t" "t" "r1" ⟨Except.ok "b", Except.ok none, Except.ok "x"⟩
        (fun _ => some (JValue.obj [("start", JValue.num 12)])) []).result
      = HandlerResult.ok JValue.null ∧
    (process_video "t" "t" "r1" ⟨Except.ok "b", Except.ok none, Except.ok "x"⟩
        (fun _ => some (JValue.obj [("start", JValue.num 12)])) []).moments
      = some (JValue.arr []) :=
  ⟨by rfl, by rfl⟩

/-- C5 (amended): when the stripped payload is not valid JSON at all, the
run fails with an uncaught JSON parse exception (no `ProposalParseError`
is defined); any payload that parses - a non-sequence value, an empty
list, or a non-empty list even of invalid candidates - is not an error:
the run completes normally with `clip_moments` equal to the guard's
result, which replaces falsy or non-list values by the empty list and
keeps any non-empty list unchanged (no clips are ever produced since the
clip-processing loop is absent). -/
theorem proposal_parse_behavior (token env runId blob text : String)
    (r : Option (List RawWord)) (ext : Externals)
    (jl : String → Option JValue) (fs0 : List String)
    (hauth : token = env)
    (hd : ext.downloadResult = Except.ok blob)
    (ht : ext.transcribeResult = Except.ok r)
    (hp : ext.proposeResult = Except.ok text) :
    (jl (cleaned_json_string text) = none →
      (process_video token env runId ext jl fs0).result
        = HandlerResult.unhandled "json.loads" "JSONDecodeError") ∧
    (∀ v, jl (cleaned_json_string text) = some v →
      (process_video token env runId ext jl fs0).result = HandlerResult.ok JValue.null ∧
      (process_video token env runId ext jl fs0).moments = some (clip_moments v) ∧
      ((v.isTruthy = false ∨ v.isArr = false) → clip_moments v = JValue.arr []) ∧
      (v.isTruthy = true → v.isArr = true → clip_moments v = v)) := by
  subst hauth
  constructor
  · intro hj
    simp [process_video, hd, ht, hp, hj]
  · intro v hj
    refine ⟨?_, ?_, ?_, ?_⟩
    · simp [process_video, hd, ht, hp, hj]
    · simp [process_video, hd, ht, hp, hj]
    · intro hcond
      rcases hcond with h | h <;> simp [clip_moments, h]
    · intro hT hA
      simp [clip_moments, hT, hA]

/-- Witness for C5's amended theorem on a non-empty list of one invalid
candidate: the run completes and the guard keeps the list unchanged. -/
theorem proposal_parse_behavior_witness :
    (process_video "t" "t" "r3" ⟨Except.ok "b", Except.ok none, Except.ok "y"⟩
        (fun _ => some (JValue.arr [JValue.obj [("start", JValue.num 12)]])) []).result
      = HandlerResult.ok JValue.null ∧
    (process_video "t" "t" "r3" ⟨Except.ok "b", Except.ok none, Except.ok "y"⟩
        (fun _ => some (JValue.arr [JValue.obj [("start", JValue.num 12)]])) []).moments
      = some (clip_moments (JValue.arr [JValue.obj [("start", JValue.num 12)]])) ∧
    clip_moments (JValue.arr [JValue.obj [("start", JValue.num 12)]])
      = JValue.arr [JValue.obj [("start", JValue.num 12)]] :=
  ⟨((proposal_parse_behavior "t" "t" "r3" "b" "y" none
      ⟨Except.ok "b", Except.ok none, Except.ok "y"⟩
      (fun _ => some (JValue.arr [JValue.obj [("start", JValue.num 12)]])) [] rfl rfl rfl rfl).2
    (JValue.arr [JValue.obj [("start", JValue.num 12)]]) rfl).1,
   ((proposal_parse_behavior "t" "t" "r3" "b" "y" none
      ⟨Except.ok "b", Except.ok none, Except.ok "y"⟩
      (fun _ => some (JValue.arr [JValue.obj [("start", JValue.num 12)]])) [] rfl rfl rfl rfl).2
    (JValue.arr [JValue.obj [("start", JValue.num 12)]]) rfl).2.1,
   ((proposal_parse_behavior "t" "t" "r3" "b" "y" none
      ⟨Except.ok "b", Except.ok none, Except.ok "y"⟩
      (fun _ => some (JValue.arr [JValue.obj [("start", JValue.num 12)]])) [] rfl rfl rfl rfl).2
    (JValue.arr [JValue.obj [("start", JValue.num 12)]]) rfl).2.2.2 rfl rfl⟩

/-- C7 counterexample: a raw token with `end ≤ start` is kept verbatim by
the transcript step instead of being dropped. -/
theorem zero_duration_token_kept_cex :
    transcribe_segments (some [RawWord.mk 5 3 "a"]) = [Segment.mk 5 3 "a"] ∧ (3 : ℚ) ≤ 5 :=
  ⟨by rfl, by norm_num⟩

/-- C7 (amended): the transcript step performs no normalization at all -
it copies every raw word record into a `{start, end, word}` record,
preserving count and order, never dropping, merging, re-sorting, or
failing. -/
theorem transcribe_segments_plain_copy :
    transcribe_segments none = [] ∧
    (∀ ws : List RawWord, (transcribe_segments (some ws)).length = ws.length) ∧
    (∀ ws : List RawWord, ∀ i : ℕ,
      (transcribe_segments (some ws))[i]?
        = (ws[i]?).map (fun w => Segment.mk w.start w.«end» w.text)) := by
  refine ⟨rfl, ?_, ?_⟩
  · intro ws
    simp [transcribe_segments]
  · intro ws i
    simp [transcribe_segments]
